import Mathlib

/-!
Verification of the dbling graph-construction and candidate-decomposition core
(`src/common/graph.py` and `src/profiler/profile.py`), as a shallow embedding.

Python strings are modelled as Lean `String`s, machine integers as `Nat`/`Int`
with explicit `% 2^32` where the SHA-256 arithmetic overflows, fallible Python
code (raising `OSError`/`KeyError`/`AssertionError`) as `Except Unit`.
-/

set_option maxRecDepth 100000

namespace Dbling

/-! ## Python string and posixpath helpers -/

/-- UTF-8 encoding of a single character, as a list of byte values
(models Python `str.encode` for one code point). -/
def utf8Bytes (c : Char) : List Nat :=
  let n := c.toNat
  if n < 128 then [n]
  else if n < 2048 then
    [192 + n / 64, 128 + n % 64]
  else if n < 65536 then
    [224 + n / 4096, 128 + (n / 64) % 64, 128 + n % 64]
  else
    [240 + n / 262144, 128 + (n / 4096) % 64, 128 + (n / 64) % 64, 128 + n % 64]

/-- UTF-8 encoding of a string, as a list of byte values
(models Python `s.encode('utf-8')`). -/
def strBytes (s : String) : List Nat :=
  (s.data.map utf8Bytes).flatten

/-- Modelled from the spec: `byte_len` (from `common/util.py`, absent from
`src/`) is the length of the last path segment in bytes, i.e. the length of
the UTF-8 encoding of its argument, not the character count. -/
def byte_len (s : String) : Nat :=
  (strBytes s).length

/-- Python `s[-13:]`: the suffix of at most 13 characters (a negative start
index clamps to the beginning of the string, so short strings are returned
whole). -/
def pySliceLast13 (s : String) : String :=
  String.mk (s.data.drop (s.data.length - 13))

/-- Python `posixpath.basename(p)`: everything after the last slash
(empty when `p` ends in a slash). -/
def pybasename (s : String) : String :=
  String.mk ((s.data.reverse.takeWhile (fun c => c ≠ '/')).reverse)

/-- Drop trailing slash characters (Python `str.rstrip('/')`). -/
def rstripSlash (l : List Char) : List Char :=
  (l.reverse.dropWhile (fun c => c = '/')).reverse

/-- Python `posixpath.split(p)`: split into `(head, tail)` at the final
slash; the head keeps its trailing slashes stripped unless it is all
slashes. -/
def pysplit (p : String) : String × String :=
  let l := p.data
  let tail := (l.reverse.takeWhile (fun c => c ≠ '/')).reverse
  let headRaw := l.take (l.length - tail.length)
  let head :=
    if headRaw ≠ [] ∧ ¬ headRaw.all (fun c => c = '/') then rstripSlash headRaw
    else headRaw
  (String.mk head, String.mk tail)

/-- Whether `s` begins with the string `p`, character-wise. -/
def strStartsWith (s p : String) : Bool :=
  s.data.take p.data.length = p.data

/-- Whether `s` ends with the string `p`, character-wise. -/
def strEndsWith (s p : String) : Bool :=
  s.data.reverse.take p.data.length = p.data.reverse

/-- Python `s.split('/')`, on character lists. -/
def splitSlash : List Char → List (List Char)
  | [] => [[]]
  | c :: cs =>
    let r := splitSlash cs
    if c = '/' then [] :: r
    else
      match r with
      | [] => [[c]]
      | h :: t => (c :: h) :: t

/-- Python `posixpath.join(a, b)` for two arguments. -/
def pjoin (a b : String) : String :=
  if strStartsWith b "/" then b
  else if a = "" ∨ strEndsWith a "/" then a ++ b
  else a ++ "/" ++ b

/-- One step of `posixpath.normpath`'s component loop. -/
def normComp (initialSlashes : Nat) (acc : List String) (comp : String) : List String :=
  if comp = "" ∨ comp = "." then acc
  else if comp ≠ ".." ∨ (initialSlashes = 0 ∧ acc = []) ∨
      (acc ≠ [] ∧ acc.getLast? = some "..") then
    acc ++ [comp]
  else if acc ≠ [] then acc.dropLast
  else acc

/-- Python `posixpath.normpath(p)`. -/
def normpath (p : String) : String :=
  if p = "" then "."
  else
    let initialSlashes : Nat :=
      if strStartsWith p "/" then
        if strStartsWith p "//" ∧ ¬ strStartsWith p "///" then 2 else 1
      else 0
    let comps := (splitSlash p.data).map String.mk
    let newComps := comps.foldl (normComp initialSlashes) []
    let joined := String.intercalate "/" newComps
    let out := String.mk (List.replicate initialSlashes '/') ++ joined
    if out = "" then "." else out

/-- Python `posixpath.abspath(p)` with an explicit current working
directory. -/
def abspath (cwd : String) (p : String) : String :=
  if strStartsWith p "/" then normpath p else normpath (pjoin cwd p)

/-! ## SHA-256 (models Python `hashlib.sha256(...).hexdigest()`) -/

/-- 2^32, the modulus for the 32-bit arithmetic of SHA-256. -/
def M32 : Nat := 4294967296

/-- Addition modulo 2^32. -/
def add32 (a b : Nat) : Nat := (a + b) % M32

/-- Rotate a 32-bit word right by `n` positions. -/
def rotr (n x : Nat) : Nat :=
  ((x >>> n) ||| (x <<< (32 - n))) % M32

/-- Bitwise complement of a 32-bit word. -/
def not32 (x : Nat) : Nat := x ^^^ 4294967295

def shaCh (e f g : Nat) : Nat := (e &&& f) ^^^ (not32 e &&& g)

def shaMaj (a b c : Nat) : Nat := ((a &&& b) ^^^ (a &&& c)) ^^^ (b &&& c)

def bsig0 (x : Nat) : Nat := rotr 2 x ^^^ rotr 13 x ^^^ rotr 22 x

def bsig1 (x : Nat) : Nat := rotr 6 x ^^^ rotr 11 x ^^^ rotr 25 x

def ssig0 (x : Nat) : Nat := rotr 7 x ^^^ rotr 18 x ^^^ (x >>> 3)

def ssig1 (x : Nat) : Nat := rotr 17 x ^^^ rotr 19 x ^^^ (x >>> 10)

/-- The round-constant table of SHA-256 (the fractional parts of the cube
roots of the first 64 primes), written in decimal. -/
def shaK : List Nat :=
  [1116352408, 1899447441, 3049323471, 3921009573, 961987163, 1508970993,
   2453635748, 2870763221, 3624381080, 310598401, 607225278, 1426881987,
   1925078388, 2162078206, 2614888103, 3248222580, 3835390401, 4022224774,
   264347078, 604807628, 770255983, 1249150122, 1555081692, 1996064986,
   2554220882, 2821834349, 2952996808, 3210313671, 3336571891, 3584528711,
   113926993, 338241895, 666307205, 773529912, 1294757372, 1396182291,
   1695183700, 1986661051, 2177026350, 2456956037, 2730485921, 2820302411,
   3259730800, 3345764771, 3516065817, 3600352804, 4094571909, 275423344,
   430227734, 506948616, 659060556, 883997877, 958139571, 1322822218,
   1537002063, 1747873779, 1955562222, 2024104815, 2227730452, 2361852424,
   2428436474, 2756734187, 3204031479, 3329325298]

/-- The starting hash state of SHA-256 (the fractional parts of the square
roots of the first 8 primes), written in decimal. -/
def shaInitState : List Nat :=
  [1779033703, 3144134277, 1013904242, 2773480762,
   1359893119, 2600822924, 528734635, 1541459225]

/-- SHA-256 message padding: append `0x80`, zero bytes, and the bit length
as an 8-byte big-endian integer, to a multiple of 64 bytes. -/
def shaPad (msg : List Nat) : List Nat :=
  let len := msg.length
  let z := (64 + 56 - ((len + 1) % 64)) % 64
  let bitLen := 8 * len
  msg ++ [128] ++ List.replicate z 0 ++
    (List.range 8).map (fun i => (bitLen >>> (8 * (7 - i))) &&& 255)

/-- Split a byte list into 64-byte chunks. -/
def chunk64 : Nat → List Nat → List (List Nat)
  | _, [] => []
  | 0, _ => []
  | fuel + 1, l => l.take 64 :: chunk64 fuel (l.drop 64)

/-- Pack a 64-byte block into 16 big-endian 32-bit words. -/
def packWords (block : List Nat) : List Nat :=
  (List.range 16).map (fun i =>
    block.getD (4 * i) 0 * 16777216 + block.getD (4 * i + 1) 0 * 65536 +
    block.getD (4 * i + 2) 0 * 256 + block.getD (4 * i + 3) 0)

/-- Extend the 16 message words to the 64-entry message schedule. -/
def schedule (ws : List Nat) : List Nat :=
  (List.range 48).foldl
    (fun ws _ =>
      let n := ws.length
      ws ++ [add32 (add32 (ssig1 (ws.getD (n - 2) 0)) (ws.getD (n - 7) 0))
                   (add32 (ssig0 (ws.getD (n - 15) 0)) (ws.getD (n - 16) 0))])
    ws

/-- One SHA-256 round on the eight-word working state. -/
def shaRound (hs : List Nat) (k w : Nat) : List Nat :=
  let a := hs.getD 0 0
  let b := hs.getD 1 0
  let c := hs.getD 2 0
  let d := hs.getD 3 0
  let e := hs.getD 4 0
  let f := hs.getD 5 0
  let g := hs.getD 6 0
  let h := hs.getD 7 0
  let t1 := add32 (add32 (add32 h (bsig1 e)) (add32 (shaCh e f g) k)) w
  let t2 := add32 (bsig0 a) (shaMaj a b c)
  [add32 t1 t2, a, b, c, add32 d t1, e, f, g]

/-- Compress one 64-byte block into the hash state. -/
def shaCompress (h0 : List Nat) (block : List Nat) : List Nat :=
  let w := schedule (packWords block)
  let hs := (List.range 64).foldl
    (fun hs i => shaRound hs (shaK.getD i 0) (w.getD i 0)) h0
  List.zipWith add32 h0 hs

/-- SHA-256 of a byte list, as the eight 32-bit words of the digest. -/
def sha256 (msg : List Nat) : List Nat :=
  let padded := shaPad msg
  (chunk64 (padded.length + 1) padded).foldl shaCompress shaInitState

/-- A lowercase hexadecimal digit. -/
def hexDigit (n : Nat) : Char :=
  if n < 10 then Char.ofNat (48 + n) else Char.ofNat (87 + n)

/-- A 32-bit word as 8 lowercase hex characters. -/
def hex8 (n : Nat) : List Char :=
  (List.range 8).map (fun i => hexDigit ((n >>> (28 - 4 * i)) &&& 15))

/-- SHA-256 hex digest of a byte list
(models `hashlib.sha256(b).hexdigest()`). -/
def sha256Hex (msg : List Nat) : String :=
  String.mk ((sha256 msg).map hex8).flatten

/-! ## Configuration and modelled constants

`common/const.py` and `common/util.py` are not part of `src/`; the spec treats
their patterns as injected configuration ("implementers must treat these as
injected configuration predicates"), so they are modelled as a record of
abstract, executable parameters. -/

/-- Modelled from the spec: the configuration constants of `common/const.py`
(absent from `src/`): `SLICE_PAT` (a regex whose group 1, when
`re.search` matches, is the "real" path suffix), `ENC_PAT` (the
encryption-indicator pattern used through `re.search`), `IN_PAT_VAULT` (the
vault containment pattern used through `re.match`) and `MIN_DEPTH` (the
minimum depth of interest), together with the process working directory used
by `os.path.abspath`. -/
structure Config where
  cwd : String := "/"
  slicePat : String → Option String := fun _ => none
  encPat : String → Bool := fun _ => false
  vaultPat : String → Bool := fun _ => false
  minDepth : Nat := 0

/-- Modelled from the spec: `EVAL_NONE` (from `common/const.py`, absent from
`src/`) is the default "none" value of the tri-state evaluation flag; the
`eval` vertex property map is boolean, so the default is `false`. -/
def EVAL_NONE : Bool := false

/-- Modelled from the spec: `separate_mode_type` (from `common/util.py`,
absent from `src/`) splits a raw `st_mode` into the permission bits (the low
twelve bits) and the object-type code (the high bits). -/
def separate_mode_type (mode : Nat) : Nat × Nat :=
  (mode % 4096, mode / 4096)

/-- Modelled from the spec: `TYPE_TO_NAME` (from `common/const.py`, absent
from `src/`) maps an object-type code to a human-readable name for the
filesystem object kind. -/
def TYPE_TO_NAME (t : Nat) : String :=
  if t = 1 then "fifo"
  else if t = 2 then "character device"
  else if t = 4 then "directory"
  else if t = 6 then "block device"
  else if t = 8 then "regular file"
  else if t = 10 then "symlink"
  else if t = 12 then "socket"
  else "unknown"

/-- Modelled from the spec: timestamps are stored "formatted as an ISO-8601
string at second resolution" via `datetime.fromtimestamp(...)` and the
`ISO_TIME` format of `common/const.py` (absent from `src/`); the formatter is
modelled as an injective rendering of the raw second count. -/
def isoTime (t : Int) : String := toString t

/-- The result of a successful `os.stat` call: the raw per-object metadata
fields read by `set_vertex_props`. -/
structure Stat where
  st_ino : Nat := 0
  st_mode : Nat := 0
  st_size : Nat := 0
  st_uid : Nat := 0
  st_gid : Nat := 0
  st_nlink : Nat := 1
  st_mtime : Int := 0
  st_ctime : Int := 0
  st_atime : Int := 0
deriving Repr, DecidableEq

/-! ## The graph model (`DblingGraph`, src/common/graph.py) -/

/-- The per-vertex property maps declared by `DblingGraph.__init__`, with
their graph-tool default values (`0`/empty/`false`, except `keeper`, declared
with `val=True`). -/
structure VProps where
  inode : Nat := 0
  parent_inode : Nat := 0
  filename : String := ""
  filename_id : String := ""
  filename_end : String := ""
  filename_b_len : Nat := 0
  name_type : String := ""
  type : List Nat := []
  filesize : String := ""
  size : String := ""
  encrypted : Bool := false
  eval : Bool := false
  dir_depth : Nat := 0
  gt_min_depth : Bool := false
  keeper : Bool := true
  mode : String := ""
  uid : String := ""
  gid : String := ""
  nlink : String := ""
  mtime : String := ""
  ctime : String := ""
  atime : String := ""
deriving Repr, DecidableEq

instance : Inhabited VProps := ⟨{}⟩

/-- A `DblingGraph`: a directed graph whose vertices are positional indices
into `verts` (graph-tool vertex indices), whose edges are ordered
source-target index pairs, plus the graph-level property
`has_encrypted_files` (declared `false`) and the `has_extended_attrs`
marker. -/
structure DGraph where
  verts : List VProps := []
  edges : List (Nat × Nat) := []
  has_encrypted_files : Bool := false
  has_extended_attrs : Bool := false
deriving Repr, DecidableEq

instance : Inhabited DGraph := ⟨{}⟩

/-- A freshly constructed `DblingGraph()` (no copy source): empty, with all
property maps at their declared defaults. -/
def emptyDblingGraph : DGraph := {}

/-- `DblingGraph.copy`: `DblingGraph(g=self)` produces an identical,
independent copy (deep property maps); on the value level it is the
identity. -/
def DGraph.copy (g : DGraph) : DGraph := g

/-- The vertex properties stored at index `i` (graph-tool property lookup). -/
def getVert (g : DGraph) (i : Nat) : VProps :=
  g.verts.getD i default

/-- Overwrite the vertex properties stored at index `i`. -/
def setVert (g : DGraph) (i : Nat) (vp : VProps) : DGraph :=
  { g with verts := g.verts.set i vp }

/-- The in-neighbours of vertex `v`, in edge-insertion order
(models `vertex.in_neighbours()`). -/
def inNeighbours (g : DGraph) (v : Nat) : List Nat :=
  (g.edges.filter (fun e => e.2 = v)).map Prod.fst

/-- `DblingGraph.save`: serialize the graph to the named file of a file
store, overwriting any previous content. -/
def DGraph.save (g : DGraph) (fname : String) (fs : List (String × DGraph)) :
    List (String × DGraph) :=
  (fname, g) :: fs.filter (fun kv => kv.1 ≠ fname)

/-- `DblingGraph.load` as written in the source: its body calls
`super().save(*args, **kwargs)`, so it writes the current graph to the file
and leaves the in-memory graph untouched; the pair returned is the graph
after the call and the resulting file store. -/
def DGraph.loadCall (g : DGraph) (fname : String) (fs : List (String × DGraph)) :
    DGraph × List (String × DGraph) :=
  (g, DGraph.save g fname fs)

/-! ## get_dir_depth (src/common/graph.py lines 199-227) -/

/-- The `while True` loop of `get_dir_depth`, with explicit fuel (the loop
strictly shrinks its head string, so `length + 1` steps always suffice). -/
def dirDepthLoop : Nat → String → Nat → Nat
  | 0, _, depth => depth
  | fuel + 1, head, depth =>
    let ht := pysplit head
    if head = ht.1 then depth
    else if ht.2.length = 0 then dirDepthLoop fuel ht.1 depth
    else if ht.1.length = 0 then depth + 1
    else dirDepthLoop fuel ht.1 (depth + 1)

/-- Apply `SLICE_PAT` to a filename: `re.search(SLICE_PAT, filename)` and,
on a match, take group 1. -/
def slicedName (cfg : Config) (slice_path : Bool) (filename : String) : String :=
  if slice_path then
    match cfg.slicePat filename with
    | some s1 => s1
    | none => filename
  else filename

/-- `get_dir_depth`: how many directory levels deep the filename is,
optionally slicing the path through `SLICE_PAT` first. -/
def get_dir_depth (cfg : Config) (filename : String) (slice_path : Bool := false) : Nat :=
  let filename := slicedName cfg slice_path filename
  dirDepthLoop (filename.length + 1) filename 0

/-! ## set_vertex_props (src/common/graph.py lines 133-196) -/

/-- The successful branch of `set_vertex_props` (after `os.stat` returned
`st`): normalize the path, derive every vertex attribute, resolve
`parent_inode` from the first in-neighbour if one exists, store the
attributes at `vertex`, and OR the graph's `has_encrypted_files` flag;
returns the updated graph and the SHA-256 hex digest of the normalized
path. -/
def svpCore (cfg : Config) (digraph : DGraph) (vertex : Nat) (filename0 : String)
    (st : Stat) (slice_path : Bool) : DGraph × String :=
  let filename := abspath cfg.cwd filename0
  let filename_id := sha256Hex (strBytes filename)
  let mt := separate_mode_type st.st_mode
  let sliced_fn := slicedName cfg slice_path filename
  let dir_depth := get_dir_depth cfg sliced_fn
  let digraph :=
    match (inNeighbours digraph vertex).head? with
    | none => digraph
    | some parent_ver =>
      setVert digraph vertex
        { getVert digraph vertex with parent_inode := (getVert digraph parent_ver).inode }
  let encd := cfg.encPat sliced_fn
  let digraph := setVert digraph vertex
    { getVert digraph vertex with
      inode := st.st_ino
      filename := filename
      filename_id := filename_id
      filename_end := pybasename (pySliceLast13 filename)
      filename_b_len := byte_len (pybasename filename)
      name_type := TYPE_TO_NAME mt.2
      type := [mt.2]
      filesize := toString st.st_size
      size := toString st.st_size
      encrypted := encd
      eval := EVAL_NONE
      dir_depth := dir_depth
      gt_min_depth := cfg.vaultPat sliced_fn && decide (cfg.minDepth ≤ dir_depth)
      mode := toString mt.1
      uid := toString st.st_uid
      gid := toString st.st_gid
      nlink := toString st.st_nlink
      mtime := isoTime st.st_mtime
      ctime := isoTime st.st_ctime
      atime := isoTime st.st_atime }
  let digraph := if encd then { digraph with has_encrypted_files := true } else digraph
  (digraph, filename_id)

/-- `set_vertex_props`: `st` is the outcome of
`os.stat(filename, follow_symlinks=False)` on the normalized path (`none`
models the call raising `OSError`, which propagates to the caller). -/
def set_vertex_props (cfg : Config) (digraph : DGraph) (vertex : Nat)
    (filename : String) (st : Option Stat) (slice_path : Bool := false) :
    Except Unit (DGraph × String) :=
  match st with
  | none => .error ()
  | some st => .ok (svpCore cfg digraph vertex filename st slice_path)

/-! ## The tree walker (make_graph_from_dir, src/common/graph.py lines 94-130) -/

mutual
/-- A filesystem object as seen by the walk: a directory with its children in
`os.scandir` order, or a non-directory object (regular file, symlink, device,
...; `os.walk` does not descend into these). The `Option Stat` is the outcome
of `os.stat` on the object (`none`: the stat call raises `OSError`).
The children sit in the companion list type `FSList` so that the walk is a
plain mutual structural recursion. -/
inductive FSObj where
  | dir (name : String) (st : Option Stat) (children : FSList)
  | leaf (name : String) (st : Option Stat)
/-- The list of children of a directory object. -/
inductive FSList where
  | nil
  | cons (head : FSObj) (tail : FSList)
end

/-- The children of a directory as an ordinary list. -/
def FSList.toList : FSList → List FSObj
  | .nil => []
  | .cons c cs => c :: cs.toList

/-- The object's name (its final path component). -/
def FSObj.name : FSObj → String
  | .dir n _ _ => n
  | .leaf n _ => n

/-- The outcome of `os.stat` on the object. -/
def FSObj.stat : FSObj → Option Stat
  | .dir _ st _ => st
  | .leaf _ st => st

/-- Whether the object is a directory. -/
def FSObj.isDir : FSObj → Bool
  | .dir _ _ _ => true
  | .leaf _ _ => false

mutual
/-- `os.walk(top)`: the top-down sequence of `(dirpath, dirnames, filenames)`
triples, with each entry's children listed directories-first exactly as the
loop body's `dirnames + filenames` concatenation iterates them; recursion
descends into subdirectories in `dirnames` order (`osWalkList`) and never
follows non-directories. -/
def osWalk : String → FSObj → List (String × List FSObj)
  | _, .leaf _ _ => []
  | p, .dir _ _ cs =>
    (p, cs.toList.filter FSObj.isDir ++ cs.toList.filter (fun c => ¬ c.isDir)) ::
      osWalkList p cs

/-- The walk over the children of one directory, in order. -/
def osWalkList : String → FSList → List (String × List FSObj)
  | _, .nil => []
  | p, .cons c cs =>
    (if c.isDir then osWalk (pjoin p c.name) c else []) ++ osWalkList p cs
end

/-- The mutable state of the walk: the graph being populated, the
`id_to_vertex` dictionary (an association list, most recent insertion first)
and the running `ttl_objects` counter. -/
structure WalkSt where
  digr : DGraph
  idToVertex : List (String × Nat)
  ttl : Nat
deriving Repr

/-- The per-child body of the walk loop: add a vertex, add the edge from the
containing directory's vertex (`KeyError` if the directory digest is not in
the dictionary), derive the vertex properties (propagating a stat failure),
and record the new vertex under its path digest. -/
def addObj (cfg : Config) (slice : Bool) (st : WalkSt) (dirId : String)
    (fullFilename : String) (stat : Option Stat) : Except Unit WalkSt :=
  match st.idToVertex.lookup dirId with
  | none => .error ()
  | some pv =>
    let vertex := st.digr.verts.length
    let g := { st.digr with
      verts := st.digr.verts ++ [default]
      edges := st.digr.edges ++ [(pv, vertex)] }
    (set_vertex_props cfg g vertex fullFilename stat slice).map
      (fun r => { digr := r.1, idToVertex := (r.2, vertex) :: st.idToVertex,
                  ttl := st.ttl + 1 })

/-- One iteration of the `os.walk` loop: hash the directory path and process
every child. -/
def processEntry (cfg : Config) (slice : Bool) (st : WalkSt)
    (entry : String × List FSObj) : Except Unit WalkSt :=
  let dirId := sha256Hex (strBytes (abspath cfg.cwd entry.1))
  entry.2.foldlM
    (fun s c => addObj cfg slice s dirId (pjoin entry.1 c.name) c.stat) st

/-- The body of `make_graph_from_dir` once the starting graph and the
`slice_path` flag are fixed: add the top directory vertex, derive its
properties, then walk the tree adding one vertex and one containment edge
per object; returns the populated graph and `ttl_objects`. -/
def make_graph_core (cfg : Config) (topDir : String) (top : FSObj)
    (digr : DGraph) (slice : Bool) : Except Unit (DGraph × Nat) :=
  if ¬ top.isDir then .error ()
  else
    let dirV := digr.verts.length
    let g0 := { digr with verts := digr.verts ++ [default] }
    match set_vertex_props cfg g0 dirV topDir top.stat slice with
    | .error e => .error e
    | .ok r =>
      let st0 : WalkSt := { digr := r.1, idToVertex := [(r.2, dirV)], ttl := 1 }
      ((osWalk topDir top).foldlM (processEntry cfg slice) st0).map
        (fun st => (st.digr, st.ttl))

/-- The dynamically typed `digr` argument of `make_graph_from_dir`: the
default `None`, a `DblingGraph` instance, or any other value (which fails the
`isinstance` check just like `None`). -/
inductive PyArg where
  | noneArg
  | dblingArg (g : DGraph)
  | otherArg
deriving Repr

/-- `make_graph_from_dir(top_dir, digr=None)`: asserts the top is a
directory, starts `slice_path = True`, but creates a fresh graph and resets
`slice_path = False` whenever `digr` is `None` or not a `DblingGraph`; then
populates the graph from the tree. `top` is the filesystem tree rooted at
`topDir`. -/
def make_graph_from_dir (cfg : Config) (topDir : String) (top : FSObj)
    (digrArg : PyArg) : Except Unit (DGraph × Nat) :=
  let slice_path := true
  match digrArg with
  | .dblingArg g => make_graph_core cfg topDir top g slice_path
  | _ => make_graph_core cfg topDir top emptyDblingGraph false

/-! ## The candidate decomposer (src/profiler/profile.py lines 38, 105-165) -/

/-- `MAX_DIST = 2**31 - 1`: the sentinel distance graph-tool stores for
vertices unreachable from the source (the maximum of the int32 distance
map). -/
def MAX_DIST : Nat := 2147483647

/-- The neighbours of vertex `i` when edges are treated as undirected
(`shortest_distance(..., directed=False)`). -/
def undirAdj (g : DGraph) (i : Nat) : List Nat :=
  (g.edges.filter (fun e => e.1 = i)).map Prod.snd ++
    (g.edges.filter (fun e => e.2 = i)).map Prod.fst

/-- One breadth-first expansion: the unvisited neighbours of the frontier. -/
def bfsNext (g : DGraph) (visited : List Nat) (frontier : List Nat) : List Nat :=
  (((frontier.map (undirAdj g)).flatten).filter (fun j => ¬ j ∈ visited)).dedup

/-- Fueled breadth-first search accumulating `(vertex, distance)` pairs. -/
def bfsGo (g : DGraph) : Nat → List (Nat × Nat) → List Nat → Nat → List (Nat × Nat)
  | 0, acc, _, _ => acc
  | fuel + 1, acc, frontier, d =>
    let nf := bfsNext g (acc.map Prod.fst) frontier
    match nf with
    | [] => acc
    | _ => bfsGo g fuel (acc ++ nf.map (fun j => (j, d + 1))) nf (d + 1)

/-- `shortest_distance(g, g.vertex(s), directed=False)` as the resulting
distance map: the breadth-first distance from `s`, with the int32 sentinel
`MAX_DIST` for vertices the search never reaches. -/
def shortest_distance (g : DGraph) (s : Nat) : Nat → Nat :=
  fun i => ((bfsGo g g.verts.length [(s, 0)] [s] 0).lookup i).getD MAX_DIST

/-- `get_subtree_vertices`: every vertex index whose computed distance from
vertex 0 is below `MAX_DIST`, in index order (the `enumerate(dist.a)`
loop). -/
def get_subtree_vertices (g : DGraph) : List Nat :=
  (List.range g.verts.length).filter
    (fun i => shortest_distance g 0 i < MAX_DIST)

/-- `Graph.remove_vertex(rm_list)` expressed through the kept index set: the
vertices whose index satisfies `p` survive in index order (graph-tool
re-indexes the survivors, preserving order), together with the edges whose
both endpoints survive, re-indexed. -/
def filterVerts (g : DGraph) (p : Nat → Bool) : DGraph :=
  let keep := (List.range g.verts.length).filter p
  { verts := keep.map (fun i => g.verts.getD i default)
    edges := g.edges.filterMap (fun e =>
      match keep.indexOf? e.1, keep.indexOf? e.2 with
      | some a, some b => some (a, b)
      | _, _ => none)
    has_encrypted_files := g.has_encrypted_files
    has_extended_attrs := g.has_extended_attrs }

/-- The first `remove_vertex` call of the loop body: drop from the working
graph every vertex of the component just measured on the scratch copy
(`rm_list` is built by `v in sg_vertices`, vertex identity being positional
index). -/
def removeComponent (g : DGraph) : DGraph :=
  filterVerts g (fun i => ¬ i ∈ get_subtree_vertices g)

/-- The second `remove_vertex` call: drop from the scratch copy every vertex
outside the component, leaving the candidate. -/
def keepComponent (g : DGraph) : DGraph :=
  filterVerts g (fun i => i ∈ get_subtree_vertices g)

/-- The conditional append of the loop body: the candidate joins the list
only when it has at least one vertex. -/
def candList (g : DGraph) : List DGraph :=
  if (keepComponent g).verts.length ≠ 0 then [keepComponent g] else []

lemma bfsGo_exists_append (g : DGraph) :
    ∀ fuel acc frontier d, ∃ t, bfsGo g fuel acc frontier d = acc ++ t := by
  intro fuel
  induction fuel with
  | zero => intro acc frontier d; exact ⟨[], by simp [bfsGo]⟩
  | succ n ih =>
    intro acc frontier d
    rw [bfsGo]
    cases hnf : bfsNext g (acc.map Prod.fst) frontier with
    | nil => exact ⟨[], by simp⟩
    | cons x xs =>
      obtain ⟨t, ht⟩ := ih (acc ++ (x :: xs).map (fun j => (j, d + 1))) (x :: xs) (d + 1)
      exact ⟨(x :: xs).map (fun j => (j, d + 1)) ++ t, by simpa using ht⟩

/-- The seed's distance to itself is 0: `(0, 0)` heads the accumulator and
breadth-first search only appends. -/
lemma shortest_distance_self (g : DGraph) (s : Nat) :
    shortest_distance g s s = 0 := by
  unfold shortest_distance
  obtain ⟨t, ht⟩ := bfsGo_exists_append g g.verts.length [(s, 0)] [s] 0
  rw [ht]
  simp [List.lookup]

/-- The seed vertex is always in its own component. -/
lemma zero_mem_subtree (g : DGraph) (h : 0 < g.verts.length) :
    0 ∈ get_subtree_vertices g := by
  unfold get_subtree_vertices
  rw [List.mem_filter]
  refine ⟨List.mem_range.mpr h, ?_⟩
  rw [shortest_distance_self]
  decide

/-- Removing the seed's component strictly shrinks the working graph. -/
lemma removeComponent_lt (g : DGraph) (h : 0 < g.verts.length) :
    (removeComponent g).verts.length < g.verts.length := by
  unfold removeComponent filterVerts
  simp only [List.length_map]
  calc ((List.range g.verts.length).filter
          (fun i => ¬ i ∈ get_subtree_vertices g)).length
      < (List.range g.verts.length).length := by
        rw [List.length_filter_lt_length_iff_exists]
        exact ⟨0, List.mem_range.mpr h, by simpa using zero_mem_subtree g h⟩
    _ = g.verts.length := List.length_range _

/-- The `while orig_graph.num_vertices() > 0` loop of `extract_candidates`
with an explicit iteration bound (each iteration strictly shrinks the
working graph, so `verts.length` iterations always reach the empty graph):
returns the candidate list and the final (drained) working graph. -/
def extractGoFuel : Nat → DGraph → List DGraph × DGraph
  | 0, g => ([], g)
  | fuel + 1, g =>
    if 0 < g.verts.length then
      let rest := extractGoFuel fuel (removeComponent g)
      (candList g ++ rest.1, rest.2)
    else ([], g)

/-- The `extract_candidates` loop run to completion. -/
def extract_candidates_go (g : DGraph) : List DGraph × DGraph :=
  extractGoFuel g.verts.length g

/-- `extract_candidates`: the ordered list of candidate graphs drained out of
the working graph. -/
def extract_candidates (g : DGraph) : List DGraph :=
  (extract_candidates_go g).1

/-! ### Partition and termination of the decomposer -/

lemma map_getD_range (l : List VProps) :
    (List.range l.length).map (fun i => l.getD i default) = l := by
  apply List.ext_getElem
  · simp
  · intro i h1 h2
    simp [List.getD_eq_getElem?_getD, List.getElem?_eq_getElem h2]

/-- The two `remove_vertex` calls of one loop iteration split the working
graph's vertex list into complementary parts. -/
lemma component_split_perm (g : DGraph) :
    ((keepComponent g).verts ++ (removeComponent g).verts).Perm g.verts := by
  unfold keepComponent removeComponent filterVerts
  simp only [decide_not]
  rw [← List.map_append]
  have h1 := List.filter_append_perm
    (fun i => decide (i ∈ get_subtree_vertices g)) (List.range g.verts.length)
  have h2 := h1.map (fun i => g.verts.getD i default)
  rw [map_getD_range] at h2
  exact h2

/-- The candidate of one iteration always has at least one vertex (it
contains the seed). -/
lemma keepComponent_length_pos (g : DGraph) (h : 0 < g.verts.length) :
    0 < (keepComponent g).verts.length := by
  unfold keepComponent filterVerts
  simp only [List.length_map]
  apply List.length_pos_of_mem (a := 0)
  rw [List.mem_filter]
  exact ⟨List.mem_range.mpr h, by simpa using zero_mem_subtree g h⟩

lemma extract_partition_aux : ∀ (fuel : Nat) (g : DGraph), g.verts.length ≤ fuel →
    ((((extractGoFuel fuel g).1.map DGraph.verts).flatten).Perm g.verts) ∧
    (extractGoFuel fuel g).2.verts = [] := by
  intro fuel
  induction fuel with
  | zero =>
    intro g hg
    have hnil : g.verts = [] := List.eq_nil_of_length_eq_zero (by omega)
    simp [extractGoFuel, hnil]
  | succ m ih =>
    intro g hg
    show ((((if 0 < g.verts.length then
        (candList g ++ (extractGoFuel m (removeComponent g)).1,
          (extractGoFuel m (removeComponent g)).2)
      else ([], g)) : List DGraph × DGraph).1.map DGraph.verts).flatten.Perm g.verts) ∧
      ((if 0 < g.verts.length then
        (candList g ++ (extractGoFuel m (removeComponent g)).1,
          (extractGoFuel m (removeComponent g)).2)
      else ([], g)) : List DGraph × DGraph).2.verts = []
    by_cases h : 0 < g.verts.length
    · simp only [h, if_true]
      have hlt := removeComponent_lt g h
      have ihr := ih (removeComponent g) (by omega)
      have hcand : candList g = [keepComponent g] := by
        unfold candList
        rw [if_pos (keepComponent_length_pos g h).ne']
      constructor
      · rw [hcand]
        simp only [List.map_append, List.map_cons, List.map_nil, List.flatten_append,
          List.flatten_cons, List.flatten_nil, List.append_nil]
        exact ((ihr.1.append_left (keepComponent g).verts).trans (component_split_perm g))
      · exact ihr.2
    · simp only [h, if_false]
      have hnil : g.verts = [] := List.eq_nil_of_length_eq_zero (by omega)
      simp [hnil]

/-- C1: for every input graph, the candidates that `extract_candidates`
returns carry the input's vertices exactly once each — their concatenated
vertex lists are a permutation of the input's vertex list — and the working
graph is fully drained (zero vertices) when the loop exits. -/
theorem extract_candidates_partitions_vertices (g : DGraph) :
    ((((extract_candidates g).map DGraph.verts).flatten).Perm g.verts) ∧
    (extract_candidates_go g).2.verts = [] :=
  extract_partition_aux g.verts.length g (le_refl _)

/-- C3: `extract_candidates` terminates on every finite graph: the seed
vertex (vertex 0 of the scratch copy) has distance 0 to itself, hence lies in
the collected component, hence every loop iteration strictly shrinks the
working graph. -/
theorem extract_candidates_loop_decreases (g : DGraph) (h : 0 < g.verts.length) :
    shortest_distance g 0 0 = 0 ∧ 0 ∈ get_subtree_vertices g ∧
    (removeComponent g).verts.length < g.verts.length :=
  ⟨shortest_distance_self g 0, zero_mem_subtree g h, removeComponent_lt g h⟩

/-- A two-vertex, one-edge working graph used as the concrete instance for
the termination claim. -/
def gTermWitness : DGraph := { verts := [{}, {}], edges := [(0, 1)] }

theorem extract_candidates_loop_decreases_witness :
    0 < gTermWitness.verts.length ∧
    (shortest_distance gTermWitness 0 0 = 0 ∧ 0 ∈ get_subtree_vertices gTermWitness ∧
      (removeComponent gTermWitness).verts.length < gTermWitness.verts.length) :=
  ⟨by decide, extract_candidates_loop_decreases gTermWitness (by decide)⟩

/-- The graph of a successful walk (used to name concrete witness graphs). -/
def getOk (r : Except Unit (DGraph × Nat)) : DGraph :=
  match r with
  | .ok p => p.1
  | .error _ => default

/-- The vertex count of a successful walk, `none` when the walk aborted. -/
def okVertCount (r : Except Unit (DGraph × Nat)) : Option Nat :=
  match r with
  | .ok p => some p.1.verts.length
  | .error _ => none

/-! ## Lemmas about set_vertex_props -/

lemma getVert_setVert_self (g : DGraph) (i : Nat) (vp : VProps)
    (h : i < g.verts.length) : getVert (setVert g i vp) i = vp := by
  simp [getVert, setVert, List.getD_eq_getElem?_getD, List.getElem?_set_self h]

lemma getVert_setVert_ne (g : DGraph) (i j : Nat) (vp : VProps) (h : i ≠ j) :
    getVert (setVert g i vp) j = getVert g j := by
  simp [getVert, setVert, List.getD_eq_getElem?_getD, List.getElem?_set_ne h]

lemma setVert_length (g : DGraph) (i : Nat) (vp : VProps) :
    (setVert g i vp).verts.length = g.verts.length := by
  simp [setVert]

lemma getVert_gp_update (g : DGraph) (i : Nat) :
    getVert { g with has_encrypted_files := true } i = getVert g i := rfl

/-- The vertex record `set_vertex_props` stores at `vertex`, written out
field by field: every attribute is overwritten from the path and the stat
data except `parent_inode` (taken from the first in-neighbour's `inode` when
one exists, left alone otherwise) and `keeper` (never touched). -/
lemma svpCore_getVert (cfg : Config) (g : DGraph) (v : Nat) (fn : String)
    (st : Stat) (sl : Bool) (hv : v < g.verts.length) :
    getVert (svpCore cfg g v fn st sl).1 v =
      { inode := st.st_ino
        parent_inode :=
          match (inNeighbours g v).head? with
          | none => (getVert g v).parent_inode
          | some p => (getVert g p).inode
        filename := abspath cfg.cwd fn
        filename_id := sha256Hex (strBytes (abspath cfg.cwd fn))
        filename_end := pybasename (pySliceLast13 (abspath cfg.cwd fn))
        filename_b_len := byte_len (pybasename (abspath cfg.cwd fn))
        name_type := TYPE_TO_NAME (separate_mode_type st.st_mode).2
        type := [(separate_mode_type st.st_mode).2]
        filesize := toString st.st_size
        size := toString st.st_size
        encrypted := cfg.encPat (slicedName cfg sl (abspath cfg.cwd fn))
        eval := EVAL_NONE
        dir_depth := get_dir_depth cfg (slicedName cfg sl (abspath cfg.cwd fn))
        gt_min_depth := cfg.vaultPat (slicedName cfg sl (abspath cfg.cwd fn)) &&
          decide (cfg.minDepth ≤ get_dir_depth cfg (slicedName cfg sl (abspath cfg.cwd fn)))
        keeper := (getVert g v).keeper
        mode := toString (separate_mode_type st.st_mode).1
        uid := toString st.st_uid
        gid := toString st.st_gid
        nlink := toString st.st_nlink
        mtime := isoTime st.st_mtime
        ctime := isoTime st.st_ctime
        atime := isoTime st.st_atime } := by
  unfold svpCore
  cases hin : (inNeighbours g v).head? with
  | none =>
    cases henc : cfg.encPat (slicedName cfg sl (abspath cfg.cwd fn)) <;>
      simp [hin, henc, getVert_gp_update, getVert_setVert_self, setVert_length, hv]
  | some p =>
    cases henc : cfg.encPat (slicedName cfg sl (abspath cfg.cwd fn)) <;>
      simp [hin, henc, getVert_gp_update, getVert_setVert_self, setVert_length, hv]

lemma svpCore_snd (cfg : Config) (g : DGraph) (v : Nat) (fn : String)
    (st : Stat) (sl : Bool) :
    (svpCore cfg g v fn st sl).2 = sha256Hex (strBytes (abspath cfg.cwd fn)) := by
  unfold svpCore
  cases hin : (inNeighbours g v).head? <;> simp [hin]

/-! ## C5: filename_id is the SHA-256 digest of the absolute path -/

/-- C5: the `filename_id` returned (and stored) by `set_vertex_props` is the
SHA-256 hex digest of the UTF-8 encoding of the absolute normalized path —
a pure, deterministic function of the path: it is unchanged under any change
of the stat metadata (so it is not a content hash), of the graph, of the
vertex or of the slicing flag, and computing it twice gives the identical
digest. -/
theorem filename_id_is_path_digest (cfg : Config) (g g' : DGraph) (v v' : Nat)
    (fn : String) (st st' : Stat) (sl sl' : Bool) :
    (svpCore cfg g v fn st sl).2 = sha256Hex (strBytes (abspath cfg.cwd fn)) ∧
    (svpCore cfg g v fn st sl).2 = (svpCore cfg g' v' fn st' sl').2 ∧
    set_vertex_props cfg g v fn (some st) sl =
      .ok ((svpCore cfg g v fn st sl).1, sha256Hex (strBytes (abspath cfg.cwd fn))) := by
  refine ⟨svpCore_snd cfg g v fn st sl, ?_, ?_⟩
  · rw [svpCore_snd, svpCore_snd]
  · show Except.ok (svpCore cfg g v fn st sl) = _
    rw [← svpCore_snd cfg g v fn st sl]

/-! ## C6: the gt_min_depth conjunction -/

/-- C6: the stored `gt_min_depth` flag is true exactly when the (possibly
sliced) path matches the vault pattern and the computed directory depth
reaches the configured minimum; failing either conjunct — including a
shallow path that does match the pattern — yields false. -/
theorem gt_min_depth_iff (cfg : Config) (g : DGraph) (v : Nat) (fn : String)
    (st : Stat) (sl : Bool) (hv : v < g.verts.length) :
    (getVert (svpCore cfg g v fn st sl).1 v).gt_min_depth = true ↔
      (cfg.vaultPat (slicedName cfg sl (abspath cfg.cwd fn)) = true ∧
        cfg.minDepth ≤ get_dir_depth cfg (slicedName cfg sl (abspath cfg.cwd fn))) := by
  rw [svpCore_getVert cfg g v fn st sl hv]
  simp

/-- A vault-pattern configuration with minimum depth 3 and a one-vertex
graph, used as the concrete instance for the depth-flag claim: the path
`/v/a` matches the pattern but has depth 2 only. -/
def cfgDepth : Config := { vaultPat := fun s => strStartsWith s "/v", minDepth := 3 }

/-- One default vertex, the target of the concrete property derivations. -/
def gOneVert : DGraph := { verts := [{}] }

theorem gt_min_depth_iff_witness :
    0 < gOneVert.verts.length ∧
    ((getVert (svpCore cfgDepth gOneVert 0 "/v/a" {} false).1 0).gt_min_depth = true ↔
      (cfgDepth.vaultPat (slicedName cfgDepth false (abspath cfgDepth.cwd "/v/a")) = true ∧
        cfgDepth.minDepth ≤
          get_dir_depth cfgDepth (slicedName cfgDepth false (abspath cfgDepth.cwd "/v/a")))) :=
  ⟨by decide, gt_min_depth_iff cfgDepth gOneVert 0 "/v/a" {} false (by decide)⟩

/-! ## C8: filename_end -/

lemma takeWhile_len_le (p : Char → Bool) (l : List Char) :
    (l.takeWhile p).length ≤ l.length := by
  induction l with
  | nil => simp
  | cons a t ih => by_cases h : p a <;> simp [List.takeWhile_cons, h] <;> omega

/-- Taking the basename of the last 13 characters of a path equals taking
the last 13 characters of the basename: the two operations commute. -/
lemma basename_slice_comm (s : String) :
    pybasename (pySliceLast13 s) = pySliceLast13 (pybasename s) := by
  unfold pybasename pySliceLast13
  show String.mk _ = String.mk _
  apply congrArg
  apply List.reverse_injective
  simp only [List.reverse_reverse, List.reverse_drop]
  rw [← List.take_takeWhile]
  have hle := takeWhile_len_le (fun c => decide (c ≠ '/')) s.data.reverse
  rw [List.length_reverse] at hle ⊢
  rw [List.take_eq_take]
  omega

/-- C8: the stored `filename_end` equals the suffix of length
`min(13, length)` of the last path segment — the code's
`basename(filename[-13:])` coincides with the spec's truncated basename. -/
theorem filename_end_is_basename_suffix (cfg : Config) (g : DGraph) (v : Nat)
    (fn : String) (st : Stat) (sl : Bool) (hv : v < g.verts.length) :
    (getVert (svpCore cfg g v fn st sl).1 v).filename_end =
      pySliceLast13 (pybasename (abspath cfg.cwd fn)) ∧
    ∀ s : String, pybasename (pySliceLast13 s) = pySliceLast13 (pybasename s) := by
  constructor
  · rw [svpCore_getVert cfg g v fn st sl hv]
    exact basename_slice_comm (abspath cfg.cwd fn)
  · exact basename_slice_comm

theorem filename_end_is_basename_suffix_witness :
    0 < gOneVert.verts.length ∧
    ((getVert (svpCore cfgDepth gOneVert 0 "/dir/somelongfilename.bin" {} false).1 0).filename_end =
        pySliceLast13 (pybasename (abspath cfgDepth.cwd "/dir/somelongfilename.bin")) ∧
      ∀ s : String, pybasename (pySliceLast13 s) = pySliceLast13 (pybasename s)) :=
  ⟨by decide,
    filename_end_is_basename_suffix cfgDepth gOneVert 0 "/dir/somelongfilename.bin" {} false
      (by decide)⟩

/-! ## C9: DblingGraph.load saves -/

/-- C9: `DblingGraph.load` does not read a graph from the file: its body
delegates to `save`, so the in-memory graph is unchanged and the named file
is overwritten with the current graph. -/
theorem load_writes_instead_of_reading (g : DGraph) (fname : String)
    (fs : List (String × DGraph)) :
    DGraph.loadCall g fname fs = (g, DGraph.save g fname fs) ∧
    (DGraph.loadCall g fname fs).1 = g ∧
    ((DGraph.loadCall g fname fs).2.lookup fname) = some g := by
  refine ⟨rfl, rfl, ?_⟩
  simp [DGraph.loadCall, DGraph.save, List.lookup_cons]

/-! ## C10: slicing is enabled iff a DblingGraph is supplied -/

/-- C10: `make_graph_from_dir` runs the walk with path slicing enabled
exactly when the caller supplies an existing `DblingGraph`; for `None` or a
non-`DblingGraph` argument it creates a fresh graph and derives every vertex
with slicing disabled, and a disabled slice flag means `SLICE_PAT` is never
applied. -/
theorem make_graph_slicing_dispatch (cfg : Config) (topDir : String) (top : FSObj) :
    (∀ g0, make_graph_from_dir cfg topDir top (.dblingArg g0) =
      make_graph_core cfg topDir top g0 true) ∧
    make_graph_from_dir cfg topDir top .noneArg =
      make_graph_core cfg topDir top emptyDblingGraph false ∧
    make_graph_from_dir cfg topDir top .otherArg =
      make_graph_core cfg topDir top emptyDblingGraph false ∧
    ∀ fn, slicedName cfg false fn = fn :=
  ⟨fun _ => rfl, rfl, rfl, fun _ => rfl⟩

/-! ## Frame lemmas for set_vertex_props -/

lemma svpCore_edges (cfg : Config) (g : DGraph) (v : Nat) (fn : String)
    (st : Stat) (sl : Bool) : (svpCore cfg g v fn st sl).1.edges = g.edges := by
  unfold svpCore
  cases hin : (inNeighbours g v).head? <;>
    cases henc : cfg.encPat (slicedName cfg sl (abspath cfg.cwd fn)) <;>
      simp [hin, henc, setVert]

lemma svpCore_extAttrs (cfg : Config) (g : DGraph) (v : Nat) (fn : String)
    (st : Stat) (sl : Bool) :
    (svpCore cfg g v fn st sl).1.has_extended_attrs = g.has_extended_attrs := by
  unfold svpCore
  cases hin : (inNeighbours g v).head? <;>
    cases henc : cfg.encPat (slicedName cfg sl (abspath cfg.cwd fn)) <;>
      simp [hin, henc, setVert]

lemma svpCore_length (cfg : Config) (g : DGraph) (v : Nat) (fn : String)
    (st : Stat) (sl : Bool) :
    (svpCore cfg g v fn st sl).1.verts.length = g.verts.length := by
  unfold svpCore
  cases hin : (inNeighbours g v).head? <;>
    cases henc : cfg.encPat (slicedName cfg sl (abspath cfg.cwd fn)) <;>
      simp [hin, henc, setVert]

lemma svpCore_getVert_ne (cfg : Config) (g : DGraph) (v : Nat) (fn : String)
    (st : Stat) (sl : Bool) (j : Nat) (hj : j ≠ v) :
    getVert (svpCore cfg g v fn st sl).1 j = getVert g j := by
  unfold svpCore
  cases hin : (inNeighbours g v).head? <;>
    cases henc : cfg.encPat (slicedName cfg sl (abspath cfg.cwd fn)) <;>
      simp [hin, henc, getVert_gp_update, getVert_setVert_ne, Ne.symm hj]

lemma svpCore_gp (cfg : Config) (g : DGraph) (v : Nat) (fn : String)
    (st : Stat) (sl : Bool) :
    (svpCore cfg g v fn st sl).1.has_encrypted_files =
      (g.has_encrypted_files || cfg.encPat (slicedName cfg sl (abspath cfg.cwd fn))) := by
  unfold svpCore
  cases hin : (inNeighbours g v).head? <;>
    cases henc : cfg.encPat (slicedName cfg sl (abspath cfg.cwd fn)) <;>
      simp [hin, henc, setVert]

lemma svpCore_verts_set (cfg : Config) (g : DGraph) (v : Nat) (fn : String)
    (st : Stat) (sl : Bool) (hv : v < g.verts.length) :
    (svpCore cfg g v fn st sl).1.verts =
      g.verts.set v (getVert (svpCore cfg g v fn st sl).1 v) := by
  unfold svpCore
  cases hin : (inNeighbours g v).head? <;>
    cases henc : cfg.encPat (slicedName cfg sl (abspath cfg.cwd fn)) <;>
      simp [hin, henc, setVert, getVert, List.set_set, List.getD_eq_getElem?_getD,
        List.getElem?_set_self, hv]

/-! ## Generic helpers for the walk induction -/

lemma getD_append_singleton_ne (l : List VProps) (d : VProps) (j : Nat)
    (hj : j ≠ l.length) : (l ++ [d]).getD j default = l.getD j default := by
  rcases Nat.lt_or_ge j l.length with h | h
  · exact List.getD_append _ _ _ _ h
  · have h2 : l.length < j := lt_of_le_of_ne h (Ne.symm hj)
    have e1 : (l ++ [d])[j]? = none := List.getElem?_eq_none (by simp; omega)
    have e2 : l[j]? = none := List.getElem?_eq_none (by omega)
    rw [List.getD_eq_getElem?_getD, List.getD_eq_getElem?_getD, e1, e2]

lemma lookup_mem_nat {l : List (String × Nat)} {k : String} {v : Nat}
    (h : l.lookup k = some v) : (k, v) ∈ l := by
  induction l with
  | nil => simp [List.lookup] at h
  | cons a t ih =>
    obtain ⟨ka, va⟩ := a
    rw [List.lookup_cons] at h
    by_cases hk : (k == ka) = true
    · have hkk : k = ka := eq_of_beq hk
      simp only [hk] at h
      cases h
      subst hkk
      exact List.mem_cons_self _ _
    · simp only [Bool.not_eq_true] at hk
      rw [hk] at h
      exact List.mem_cons_of_mem _ (ih h)

lemma foldlM_except_inv {σ α : Type} {P : σ → Prop} (f : σ → α → Except Unit σ)
    (hf : ∀ s a s', f s a = .ok s' → P s → P s') :
    ∀ (l : List α) (s r : σ), l.foldlM f s = .ok r → P s → P r := by
  intro l
  induction l with
  | nil =>
    intro s r h hp
    rw [List.foldlM_nil] at h
    cases h
    exact hp
  | cons a t ih =>
    intro s r h hp
    rw [List.foldlM_cons] at h
    cases hfa : f s a with
    | error e =>
      rw [hfa] at h
      exact absurd h (by simp [Bind.bind, Except.bind])
    | ok s1 =>
      rw [hfa] at h
      exact ih s1 r h (hf s a s1 hfa hp)

lemma foldlM_except_ok_of_mem {σ α : Type} (f : σ → α → Except Unit σ) :
    ∀ (l : List α) (s r : σ), l.foldlM f s = .ok r →
      ∀ x ∈ l, ∃ s1 r1, f s1 x = .ok r1 := by
  intro l
  induction l with
  | nil => intro s r _ x hx; simp at hx
  | cons a t ih =>
    intro s r h x hx
    rw [List.foldlM_cons] at h
    cases hfa : f s a with
    | error e =>
      rw [hfa] at h
      exact absurd h (by simp [Bind.bind, Except.bind])
    | ok s1 =>
      rw [hfa] at h
      rcases List.mem_cons.mp hx with hxa | hxt
      · exact ⟨s, s1, hxa ▸ hfa⟩
      · exact ih s1 r h x hxt

/-! ## The effect of one addObj step -/

/-- Everything a successful `addObj` step does to the state: the containing
directory's vertex was found in the dictionary, the stat succeeded, exactly
one vertex (at the next index) and one in-edge to it were appended, no other
vertex's properties changed, `has_encrypted_files` was OR-ed with the new
vertex's `encrypted` flag, and — when no earlier edge targets the new index
and the found parent index is in range — the new vertex's `parent_inode` is
the parent's `inode`. -/
lemma addObj_ok_spec (cfg : Config) (sl : Bool) (s : WalkSt) (dirId fullFn : String)
    (stat : Option Stat) (s' : WalkSt)
    (hok : addObj cfg sl s dirId fullFn stat = .ok s') :
    ∃ pv stt, s.idToVertex.lookup dirId = some pv ∧ stat = some stt ∧
      s'.digr.edges = s.digr.edges ++ [(pv, s.digr.verts.length)] ∧
      s'.digr.verts.length = s.digr.verts.length + 1 ∧
      (∀ j, j ≠ s.digr.verts.length → getVert s'.digr j = getVert s.digr j) ∧
      s'.digr.verts = s.digr.verts ++ [getVert s'.digr s.digr.verts.length] ∧
      s'.digr.has_encrypted_files =
        (s.digr.has_encrypted_files ||
          cfg.encPat (slicedName cfg sl (abspath cfg.cwd fullFn))) ∧
      (getVert s'.digr s.digr.verts.length).encrypted =
        cfg.encPat (slicedName cfg sl (abspath cfg.cwd fullFn)) ∧
      ((∀ e ∈ s.digr.edges, e.2 ≠ s.digr.verts.length) → pv < s.digr.verts.length →
        (getVert s'.digr s.digr.verts.length).parent_inode =
          (getVert s.digr pv).inode) ∧
      (∃ key, s'.idToVertex = (key, s.digr.verts.length) :: s.idToVertex) := by
  unfold addObj at hok
  cases hlk : s.idToVertex.lookup dirId with
  | none => rw [hlk] at hok; exact absurd hok (by simp)
  | some pv =>
    rw [hlk] at hok
    cases stat with
    | none => exact absurd hok (by simp [set_vertex_props, Except.map])
    | some stt =>
      simp only [set_vertex_props, Except.map] at hok
      set n := s.digr.verts.length with hn
      set g1 : DGraph := { s.digr with
        verts := s.digr.verts ++ [default],
        edges := s.digr.edges ++ [(pv, n)] } with hg1
      have hs' : s' = WalkSt.mk (svpCore cfg g1 n fullFn stt sl).1
          (((svpCore cfg g1 n fullFn stt sl).2, n) :: s.idToVertex) (s.ttl + 1) :=
        (Except.ok.inj hok).symm
      have hv1 : n < g1.verts.length := by
        simp [hg1]
      have hlen1 : g1.verts.length = n + 1 := by simp [hg1]
      refine ⟨pv, stt, rfl, rfl, ?_, ?_, ?_, ?_, ?_, ?_, ?_, ?_⟩
      · rw [hs']
        simp only
        rw [svpCore_edges]
      · rw [hs']
        simp only
        rw [svpCore_length, hlen1]
      · intro j hj
        rw [hs']
        simp only
        rw [svpCore_getVert_ne cfg g1 n fullFn stt sl j hj]
        show getVert g1 j = getVert s.digr j
        unfold getVert
        exact getD_append_singleton_ne s.digr.verts default j hj
      · rw [hs']
        simp only
        rw [svpCore_verts_set cfg g1 n fullFn stt sl hv1]
        show (s.digr.verts ++ [default]).set n _ = _
        rw [List.set_append_right _ _ (le_refl n)]
        simp
      · rw [hs']
        simp only
        rw [svpCore_gp]
      · rw [hs']
        simp only
        rw [svpCore_getVert cfg g1 n fullFn stt sl hv1]
      · intro hnone hpv
        have hin1 : inNeighbours g1 n = [pv] := by
          unfold inNeighbours
          show ((s.digr.edges ++ [(pv, n)]).filter (fun e => e.2 = n)).map Prod.fst = [pv]
          rw [List.filter_append]
          have hnil : s.digr.edges.filter (fun e => decide (e.2 = n)) = [] :=
            List.filter_eq_nil_iff.mpr (fun e he => by simpa using hnone e he)
          rw [hnil]
          simp
        rw [hs']
        simp only
        rw [svpCore_getVert cfg g1 n fullFn stt sl hv1]
        simp only [hin1, List.head?_cons]
        show (getVert g1 pv).inode = (getVert s.digr pv).inode
        unfold getVert
        rw [show g1.verts = s.digr.verts ++ [default] from rfl,
          getD_append_singleton_ne s.digr.verts default pv (by omega)]
      · exact ⟨(svpCore cfg g1 n fullFn stt sl).2, by rw [hs']⟩

/-! ## The walker's structural invariant -/

/-- The structural invariant of every graph the walker builds from scratch:
the edge targets are exactly the non-root vertex indices in order (so each
non-root vertex has exactly one in-edge and the root has none), every edge
points from an earlier vertex to a later one (parent before child), every
edge's target stores the source's `inode` as its `parent_inode`, and the
root keeps the default `parent_inode` 0. -/
def GraphInv (g : DGraph) : Prop :=
  0 < g.verts.length ∧
  g.edges.map Prod.snd = List.range' 1 (g.verts.length - 1) ∧
  (∀ e ∈ g.edges, e.1 < e.2) ∧
  (∀ e ∈ g.edges, (getVert g e.2).parent_inode = (getVert g e.1).inode) ∧
  (getVert g 0).parent_inode = 0

/-- `GraphInv` plus: every vertex recorded in `id_to_vertex` is in range. -/
def WalkInv (s : WalkSt) : Prop :=
  GraphInv s.digr ∧ ∀ kv ∈ s.idToVertex, kv.2 < s.digr.verts.length

/-- The `has_encrypted_files` invariant of a graph built by pure vertex
addition: the flag is set exactly when some vertex is encrypted. -/
def EncInv (g : DGraph) : Prop :=
  g.has_encrypted_files = true ↔ ∃ vp ∈ g.verts, vp.encrypted = true

lemma addObj_walkInv {cfg : Config} {sl : Bool} {s : WalkSt} {dirId fullFn : String}
    {stat : Option Stat} {s' : WalkSt}
    (hok : addObj cfg sl s dirId fullFn stat = .ok s') (hinv : WalkInv s) :
    WalkInv s' := by
  obtain ⟨⟨hpos, hmap, hlt, hrel, hroot⟩, hdict⟩ := hinv
  obtain ⟨pv, stt, hlk, _, hedges, hlen, hframe, _, _, _, hpar, key, hdictEq⟩ :=
    addObj_ok_spec cfg sl s dirId fullFn stat s' hok
  set n := s.digr.verts.length with hn
  have hpv : pv < n := hdict _ (lookup_mem_nat hlk)
  have htgt : ∀ e ∈ s.digr.edges, e.2 < n := by
    intro e he
    have h1 : e.2 ∈ s.digr.edges.map Prod.snd := List.mem_map_of_mem _ he
    rw [hmap, List.mem_range'] at h1
    obtain ⟨i, hi, hei⟩ := h1
    omega
  refine ⟨⟨?_, ?_, ?_, ?_, ?_⟩, ?_⟩
  · omega
  · rw [hedges, hlen, List.map_append]
    have h1 : (n + 1 - 1) = (n - 1) + 1 := by omega
    rw [hmap, h1, List.range'_concat]
    have h2 : 1 + 1 * (n - 1) = n := by omega
    rw [h2]
    rfl
  · intro e he
    rw [hedges] at he
    rcases List.mem_append.mp he with hold | hnew
    · exact hlt e hold
    · simp only [List.mem_singleton] at hnew
      rw [hnew]
      exact hpv
  · intro e he
    rw [hedges] at he
    rcases List.mem_append.mp he with hold | hnew
    · have h2 := htgt e hold
      have h1 : e.1 < n := lt_trans (hlt e hold) h2
      rw [hframe e.2 (by omega), hframe e.1 (by omega)]
      exact hrel e hold
    · simp only [List.mem_singleton] at hnew
      subst hnew
      show (getVert s'.digr n).parent_inode = (getVert s'.digr pv).inode
      rw [hframe pv (by omega)]
      exact hpar (fun e he => (htgt e he).ne) hpv
  · rw [hframe 0 (by omega)]
    exact hroot
  · intro kv hkv
    rw [hdictEq] at hkv
    rcases List.mem_cons.mp hkv with h1 | h1
    · rw [h1, hlen]
      omega
    · have := hdict kv h1
      omega

lemma addObj_encInv {cfg : Config} {sl : Bool} {s : WalkSt} {dirId fullFn : String}
    {stat : Option Stat} {s' : WalkSt}
    (hok : addObj cfg sl s dirId fullFn stat = .ok s') (hinv : EncInv s.digr) :
    EncInv s'.digr := by
  obtain ⟨pv, stt, _, _, _, _, _, hverts, hgp, henc, _, _⟩ :=
    addObj_ok_spec cfg sl s dirId fullFn stat s' hok
  unfold EncInv at hinv ⊢
  rw [hgp, hverts]
  simp only [List.mem_append, List.mem_singleton, Bool.or_eq_true]
  constructor
  · rintro (h1 | h1)
    · obtain ⟨vp, hvp, hvpe⟩ := hinv.mp h1
      exact ⟨vp, Or.inl hvp, hvpe⟩
    · exact ⟨_, Or.inr rfl, henc ▸ h1⟩
  · rintro ⟨vp, hvp | hvp, hvpe⟩
    · exact Or.inl (hinv.mpr ⟨vp, hvp, hvpe⟩)
    · rw [hvp] at hvpe
      rw [henc] at hvpe
      exact Or.inr hvpe

lemma processEntry_walkInv {cfg : Config} {sl : Bool} {s : WalkSt}
    {entry : String × List FSObj} {s' : WalkSt}
    (hok : processEntry cfg sl s entry = .ok s') (hinv : WalkInv s) : WalkInv s' := by
  unfold processEntry at hok
  exact foldlM_except_inv _ (fun a b c h hp => addObj_walkInv h hp) entry.2 s s' hok hinv

lemma processEntry_encInv {cfg : Config} {sl : Bool} {s : WalkSt}
    {entry : String × List FSObj} {s' : WalkSt}
    (hok : processEntry cfg sl s entry = .ok s') (hinv : EncInv s.digr) :
    EncInv s'.digr := by
  unfold processEntry at hok
  exact foldlM_except_inv (P := fun st => EncInv st.digr) _
    (fun a b c h hp => addObj_encInv h hp) entry.2 s s' hok hinv

/-- `addObj` never succeeds when the object's stat call fails. -/
lemma addObj_stat_none (cfg : Config) (sl : Bool) (s : WalkSt) (dirId fullFn : String)
    (r : WalkSt) : addObj cfg sl s dirId fullFn none ≠ .ok r := by
  unfold addObj
  cases hlk : s.idToVertex.lookup dirId <;>
    simp [hlk, set_vertex_props, Except.map]

/-- The walk state right after the top directory's vertex has been added and
its properties derived. -/
def initSt (cfg : Config) (topDir : String) (digr : DGraph) (stt : Stat)
    (sl : Bool) : WalkSt :=
  WalkSt.mk (svpCore cfg { digr with verts := digr.verts ++ [default] }
      digr.verts.length topDir stt sl).1
    [((svpCore cfg { digr with verts := digr.verts ++ [default] }
      digr.verts.length topDir stt sl).2, digr.verts.length)] 1

/-- Unfolding a successful `make_graph_from_dir` run: the top is a directory,
its stat succeeded, and the result is the state obtained by folding the walk
entries from the initial one-vertex state. -/
lemma make_graph_core_ok_elim {cfg : Config} {topDir : String} {top : FSObj}
    {digr : DGraph} {sl : Bool} {g : DGraph} {n : Nat}
    (h : make_graph_core cfg topDir top digr sl = .ok (g, n)) :
    ∃ stt stf, top.isDir = true ∧ top.stat = some stt ∧
      (osWalk topDir top).foldlM (processEntry cfg sl)
        (initSt cfg topDir digr stt sl) = .ok stf ∧
      g = stf.digr ∧ n = stf.ttl := by
  unfold make_graph_core at h
  cases hd : top.isDir with
  | false => rw [hd] at h; simp at h
  | true =>
    rw [hd] at h
    simp only [Bool.not_true, Bool.false_eq_true, if_false] at h
    cases hts : top.stat with
    | none => rw [hts] at h; simp [set_vertex_props] at h
    | some stt =>
      rw [hts] at h
      simp only [set_vertex_props] at h
      cases hf : (osWalk topDir top).foldlM (processEntry cfg sl)
          (initSt cfg topDir digr stt sl) with
      | error e =>
        rw [show ((osWalk topDir top).foldlM (processEntry cfg sl)
            { digr := (svpCore cfg { digr with verts := digr.verts ++ [default] }
                digr.verts.length topDir stt sl).1,
              idToVertex := [((svpCore cfg { digr with verts := digr.verts ++ [default] }
                digr.verts.length topDir stt sl).2, digr.verts.length)],
              ttl := 1 }) = Except.error e from hf] at h
        simp [Except.map] at h
      | ok stf =>
        rw [show ((osWalk topDir top).foldlM (processEntry cfg sl)
            { digr := (svpCore cfg { digr with verts := digr.verts ++ [default] }
                digr.verts.length topDir stt sl).1,
              idToVertex := [((svpCore cfg { digr with verts := digr.verts ++ [default] }
                digr.verts.length topDir stt sl).2, digr.verts.length)],
              ttl := 1 }) = Except.ok stf from hf] at h
        simp only [Except.map] at h
        obtain ⟨h1, h2⟩ := Prod.mk.injEq .. ▸ Except.ok.inj h
        exact ⟨stt, stf, rfl, rfl, hf, h1.symm, h2.symm⟩

lemma init_walkInv (cfg : Config) (topDir : String) (stt : Stat) (sl : Bool) :
    WalkInv (initSt cfg topDir emptyDblingGraph stt sl) := by
  have hinit : initSt cfg topDir emptyDblingGraph stt sl =
      WalkSt.mk (svpCore cfg { verts := [default] } 0 topDir stt sl).1
        [((svpCore cfg { verts := [default] } 0 topDir stt sl).2, 0)] 1 := rfl
  rw [hinit]
  unfold WalkInv GraphInv
  simp only
  have hv : (0 : Nat) < ({ verts := [default] } : DGraph).verts.length := by simp
  have hlen := svpCore_length cfg { verts := [default] } 0 topDir stt sl
  have hel := svpCore_edges cfg { verts := [default] } 0 topDir stt sl
  refine ⟨⟨?_, ?_, ?_, ?_, ?_⟩, ?_⟩
  · simp [hlen]
  · rw [hel, hlen]
    rfl
  · intro e he
    rw [hel] at he
    simp at he
  · intro e he
    rw [hel] at he
    simp at he
  · rw [svpCore_getVert cfg { verts := [default] } 0 topDir stt sl hv]
    have hinn : inNeighbours { verts := [default] } 0 = [] := rfl
    simp only [hinn, List.head?_nil]
    rfl
  · intro kv hkv
    simp only [List.mem_singleton] at hkv
    rw [hkv, hlen]
    simp

lemma init_encInv (cfg : Config) (topDir : String) (stt : Stat) (sl : Bool) :
    EncInv (initSt cfg topDir emptyDblingGraph stt sl).digr := by
  have hinit : (initSt cfg topDir emptyDblingGraph stt sl).digr =
      (svpCore cfg { verts := [default] } 0 topDir stt sl).1 := rfl
  rw [hinit]
  unfold EncInv
  have hv : (0 : Nat) < ({ verts := [default] } : DGraph).verts.length := by simp
  rw [svpCore_gp, svpCore_verts_set cfg { verts := [default] } 0 topDir stt sl hv,
    svpCore_getVert cfg { verts := [default] } 0 topDir stt sl hv]
  show (false || cfg.encPat (slicedName cfg sl (abspath cfg.cwd topDir))) = true ↔ _
  simp [getVert]

/-! ### Counting in-edges from the target list -/

lemma length_filter_snd (es : List (Nat × Nat)) (i : Nat) :
    (es.filter (fun e => e.2 = i)).length = (es.map Prod.snd).count i := by
  induction es with
  | nil => rfl
  | cons a t ih =>
    by_cases h : a.2 = i <;>
      simp [List.filter_cons, h, List.count_cons, ih, Nat.add_comm]

lemma count_range'_one {i n : Nat} (h1 : 1 ≤ i) (h2 : i < n) :
    (List.range' 1 (n - 1)).count i = 1 := by
  apply List.count_eq_one_of_mem (List.nodup_range' _ _)
  rw [List.mem_range']
  exact ⟨i - 1, by omega, by omega⟩

lemma count_range'_zero {n : Nat} : (List.range' 1 (n - 1)).count 0 = 0 := by
  apply List.count_eq_zero_of_not_mem
  rw [List.mem_range']
  rintro ⟨i, hi, h0⟩
  omega

/-! ## C7: unique parent edges and parent_inode linkage -/

/-- C7: in every graph the tree walker builds from scratch, each non-root
vertex has exactly one in-edge, the target of every edge stores as its
`parent_inode` the `inode` of its unique in-neighbour (the edge's source),
and the root vertex (index 0) has no in-edge and keeps the default
`parent_inode` 0. -/
theorem walker_unique_parent_edge (cfg : Config) (topDir : String) (top : FSObj)
    (g : DGraph) (n : Nat)
    (h : make_graph_from_dir cfg topDir top .noneArg = .ok (g, n)) :
    (∀ i, 1 ≤ i → i < g.verts.length →
      (g.edges.filter (fun e => e.2 = i)).length = 1) ∧
    (g.edges.filter (fun e => e.2 = 0)).length = 0 ∧
    (∀ e ∈ g.edges, (getVert g e.2).parent_inode = (getVert g e.1).inode) ∧
    (getVert g 0).parent_inode = 0 := by
  have hcore : make_graph_core cfg topDir top emptyDblingGraph false = .ok (g, n) := h
  obtain ⟨stt, stf, hd, hts, hfold, hg, hn⟩ := make_graph_core_ok_elim hcore
  have hinvf : WalkInv stf :=
    foldlM_except_inv _ (fun a b c hh hp => processEntry_walkInv hh hp) _ _ _
      hfold (init_walkInv cfg topDir stt false)
  obtain ⟨⟨hpos, hmap, hlt, hrel, hroot⟩, _⟩ := hinvf
  subst hg
  refine ⟨?_, ?_, hrel, hroot⟩
  · intro i h1 h2
    rw [length_filter_snd, hmap, count_range'_one h1 h2]
  · rw [length_filter_snd, hmap, count_range'_zero]

/-! ## C4: has_encrypted_files -/

/-- Amended C4: for graphs built by the tree walker from scratch (vertices
only ever added), `has_encrypted_files` is true iff some vertex in the graph
has `encrypted = true`; the flag is OR-accumulated and never recomputed, so
this equivalence is an invariant of construction but not of vertex removal. -/
theorem walker_has_encrypted_iff (cfg : Config) (topDir : String) (top : FSObj)
    (g : DGraph) (n : Nat)
    (h : make_graph_from_dir cfg topDir top .noneArg = .ok (g, n)) :
    (g.has_encrypted_files = true ↔ ∃ vp ∈ g.verts, vp.encrypted = true) := by
  have hcore : make_graph_core cfg topDir top emptyDblingGraph false = .ok (g, n) := h
  obtain ⟨stt, stf, hd, hts, hfold, hg, hn⟩ := make_graph_core_ok_elim hcore
  have hinvf : EncInv stf.digr :=
    foldlM_except_inv (P := fun s => EncInv s.digr)
      _ (fun a b c hh hp => processEntry_encInv hh hp) _ _ _
      hfold (init_encInv cfg topDir stt false)
  subst hg
  exact hinvf

/-! ## C2: a stat failure aborts the walk -/

/-- Amended C2: a failure of the per-object stat call is fatal, not skipped:
whenever `make_graph_from_dir` returns a graph, the stat call succeeded for
the top directory and for every object visited by the walk — equivalently, a
single failing object makes the whole walk abort with the propagated error
instead of producing a graph one vertex short. -/
theorem stat_failure_aborts_walk (cfg : Config) (topDir : String) (top : FSObj)
    (arg : PyArg) (g : DGraph) (n : Nat)
    (h : make_graph_from_dir cfg topDir top arg = .ok (g, n)) :
    top.stat.isSome = true ∧
      ∀ e ∈ osWalk topDir top, ∀ c ∈ e.2, c.stat.isSome = true := by
  have hcore : ∃ digr sl, make_graph_core cfg topDir top digr sl = .ok (g, n) := by
    cases arg with
    | noneArg => exact ⟨emptyDblingGraph, false, h⟩
    | dblingArg g0 => exact ⟨g0, true, h⟩
    | otherArg => exact ⟨emptyDblingGraph, false, h⟩
  obtain ⟨digr, sl, hcore⟩ := hcore
  obtain ⟨stt, stf, hd, hts, hfold, hg, hn⟩ := make_graph_core_ok_elim hcore
  refine ⟨by rw [hts]; rfl, ?_⟩
  intro e he c hc
  obtain ⟨s1, r1, h1⟩ := foldlM_except_ok_of_mem _ _ _ _ hfold e he
  unfold processEntry at h1
  obtain ⟨s2, r2, h2⟩ := foldlM_except_ok_of_mem _ _ _ _ h1 c hc
  cases hcs : c.stat with
  | none =>
    rw [hcs] at h2
    exact absurd h2 (addObj_stat_none _ _ _ _ _ _)
  | some _ => rfl

/-! ## Concrete fixtures for witnesses and counterexamples -/

/-- The all-defaults configuration (no slice, encryption или vault pattern). -/
def cfgW : Config := {}

/-- A directory `/t` with a single regular file `a`. -/
def fsW : FSObj := .dir "t" (some { st_ino := 1 })
  (.cons (.leaf "a" (some { st_ino := 7 })) .nil)

/-- The graph the walker builds from `fsW`. -/
def gW : DGraph := getOk (make_graph_from_dir cfgW "/t" fsW .noneArg)

theorem walker_unique_parent_edge_witness :
    make_graph_from_dir cfgW "/t" fsW .noneArg = .ok (gW, 2) ∧
    ((∀ i, 1 ≤ i → i < gW.verts.length →
        (gW.edges.filter (fun e => e.2 = i)).length = 1) ∧
      (gW.edges.filter (fun e => e.2 = 0)).length = 0 ∧
      (∀ e ∈ gW.edges, (getVert gW e.2).parent_inode = (getVert gW e.1).inode) ∧
      (getVert gW 0).parent_inode = 0) :=
  ⟨rfl, walker_unique_parent_edge cfgW "/t" fsW gW 2 rfl⟩

/-- `/t` containing files `a` and `b`, where the stat call on `b` fails. -/
def fsBadStat : FSObj := .dir "t" (some { st_ino := 1 })
  (.cons (.leaf "a" (some { st_ino := 7 })) (.cons (.leaf "b" none) .nil))

/-- The same tree with all stat calls succeeding. -/
def fsGoodStat : FSObj := .dir "t" (some { st_ino := 1 })
  (.cons (.leaf "a" (some { st_ino := 7 })) (.cons (.leaf "b" (some { st_ino := 8 })) .nil))

/-- The graph of the fully successful walk over `fsGoodStat`. -/
def gGoodStat : DGraph := getOk (make_graph_from_dir cfgW "/t" fsGoodStat .noneArg)

/-- Counterexample to the skip-and-continue reading of the failure policy:
on the tree whose object `b` has a failing stat call the walk returns no
graph at all (the `OSError` propagates out of `make_graph_from_dir`), while
the otherwise-identical successful walk returns a 3-vertex graph — there is
no 2-vertex "one fewer vertex" result. -/
theorem stat_failure_no_skip_counterexample :
    okVertCount (make_graph_from_dir cfgW "/t" fsBadStat .noneArg) = none ∧
    okVertCount (make_graph_from_dir cfgW "/t" fsGoodStat .noneArg) = some 3 :=
  ⟨rfl, rfl⟩

theorem stat_failure_aborts_walk_witness :
    make_graph_from_dir cfgW "/t" fsGoodStat .noneArg = .ok (gGoodStat, 3) ∧
    (fsGoodStat.stat.isSome = true ∧
      ∀ e ∈ osWalk "/t" fsGoodStat, ∀ c ∈ e.2, c.stat.isSome = true) :=
  ⟨rfl, stat_failure_aborts_walk cfgW "/t" fsGoodStat .noneArg gGoodStat 3 rfl⟩

/-- A configuration whose encryption-indicator pattern matches exactly the
path `/a`. -/
def cfgEnc : Config := { encPat := fun s => s = "/a" }

/-- The single directory `/a`, which matches the encryption pattern. -/
def fsEnc : FSObj := .dir "a" (some { st_ino := 2 }) .nil

/-- The one-vertex graph of the walk over `/a`: its only vertex is flagged
encrypted, so `has_encrypted_files` is set. -/
def gEnc : DGraph := getOk (make_graph_from_dir cfgEnc "/a" fsEnc .noneArg)

theorem walker_has_encrypted_iff_witness :
    make_graph_from_dir cfgEnc "/a" fsEnc .noneArg = .ok (gEnc, 1) ∧
    (gEnc.has_encrypted_files = true ↔ ∃ vp ∈ gEnc.verts, vp.encrypted = true) :=
  ⟨rfl, walker_has_encrypted_iff cfgEnc "/a" fsEnc gEnc 1 rfl⟩

/-- The single directory `/b`, which does not match the pattern. -/
def fsPlain : FSObj := .dir "b" (some { st_ino := 3 }) .nil

/-- Walking `/b` into the graph that already holds `/a` yields a two-vertex,
two-component graph whose flag is true (inherited from the `/a` vertex). -/
def gTwoComp : DGraph :=
  getOk (make_graph_from_dir cfgEnc "/b" fsPlain (.dblingArg gEnc))

/-- The second candidate extracted from that graph: only the `/b` vertex. -/
def staleCand : DGraph := (extract_candidates gTwoComp).getD 1 default

/-- Counterexample to the claimed `has_encrypted_files` equivalence on every
graph reachable through the core's operations: the second candidate that
`extract_candidates` produces from `gTwoComp` inherits
`has_encrypted_files = true` from the copied working graph although its only
vertex is not encrypted. -/
theorem has_encrypted_files_stale_on_candidate :
    staleCand.has_encrypted_files = true ∧
    staleCand.verts.length = 1 ∧
    staleCand.verts.all (fun vp => !vp.encrypted) = true :=
  ⟨rfl, rfl, rfl⟩

/-! ## Behavioural cross-checks of the embedded helpers against the Python
reference behaviour (FIPS 180-4 test vectors for SHA-256; CPython semantics
for the posixpath helpers). -/

example : sha256Hex [] =
    "e3b0c44298fc1c149afbf4c8996fb92427ae41e4649b934ca495991b7852b855" := rfl

example : sha256Hex (strBytes "abc") =
    "ba7816bf8f01cfea414140de5dae2223b00361a396177a9cb410ff61f20015ad" := rfl

example : normpath "/a//b/../c/./d/" = "/a/c/d" := rfl

example : abspath "/cwd" "x/y" = "/cwd/x/y" := rfl

example : pysplit "/a/b" = ("/a", "b") := rfl

example : pysplit "/" = ("/", "") := rfl

example : pysplit "//a" = ("//", "a") := rfl

example : pybasename "/a/" = "" := rfl

example : pySliceLast13 "0123456789abcdefgh" = "56789abcdefgh" := rfl

example : get_dir_depth {} "/a/b/c" = 3 := rfl

example : get_dir_depth {} "/" = 0 := rfl

example : get_dir_depth {} "/a/" = 1 := rfl

example : byte_len "aé€" = 6 := rfl

end Dbling
